import Mathlib

/-!
Verification of the clrust tiered argument parser core.

This development shallowly embeds the parser core that `src/lib.rs` compiles:
`arg_key.rs` (ArgKey), `parse_error.rs` (ParseError), `parsed_arg.rs`
(ParsedArg), `arg.rs` (validators and the Arg composite) and `arg_parser.rs`
(ParamTier / ArgParser).  The legacy modules `argument.rs`,
`argument_parser.rs` and `error.rs` are not part of the crate's module tree
and are not embedded.

Modelling conventions:
* Rust `String` values that flow through parsing are modelled as `List Char`
  (abbreviated `Str`), so that splitting a token at its first `'='` is a
  structural operation.  Error messages, which no parsing decision inspects,
  stay as Lean `String`.
* Rust panics (`Option::unwrap` on `None`, reached through
  `ParsedArg::args.last().unwrap()`) are modelled explicitly: the record
  accessors return `Option` (with `none` for the panic) and the parsing
  pipeline returns `PRes`, a result type with a dedicated `panic` outcome.
* The in-progress rename in the crate is resolved by the one existing
  definition of each operation: `ArgKey::parse_arg` is `ArgKey::from_cmd`,
  `ArgKey::make` is `ArgKey::new`, `ParsedArg::add_argument` is
  `ParsedArg::add_parametric`, `ParsedArg::add_positional_argument` is
  `ParsedArg::add_positional`, and `ParsedArg::len` is
  `ParsedArg::positional_argument_size`.
* `u64` cardinality bounds become `Nat`; the code only compares them
  (`count < min || count > max`), and `usize -> u64` casts are lossless, so
  no wrap-around behaviour is lost.
-/

/-- Rust `String` contents, as a list of characters. -/
abbrev Str := List Char

namespace Clrust

/-- Embeds `ParseErrorKind` from `parse_error.rs`.  The extra `InvalidKey`
constructor stands for the unit error that `arg_key.rs` raises on a
malformed key (its `use crate::error::ParseError` import), folded into the
one error type of the embedding. -/
inductive ParseErrorKind where
  | InvalidValue
  | DuplicateArgument
  | NoValueGiven
  | NotRequiredArgument
  | NotArgumentKey
  | TooManyValueGiven
  | NotPositional
  | InvalidKey
deriving DecidableEq

/-- Embeds `ParseError` struct from `parse_error.rs`: a kind, a message and an
optional tag naming the key or positional slot the error belongs to. -/
structure ParseError where
  kind : ParseErrorKind
  msg : String
  key : Option Str
deriving DecidableEq

namespace ParseError

/-- Embeds `ParseError::invalid_value`. -/
def invalid_value (msg : String) : ParseError := ⟨.InvalidValue, msg, none⟩

/-- Embeds `ParseError::no_value_given`. -/
def no_value_given (msg : String) : ParseError := ⟨.NoValueGiven, msg, none⟩

/-- Embeds `ParseError::too_many_value_given`. -/
def too_many_value_given (msg : String) : ParseError :=
  ⟨.TooManyValueGiven, msg, none⟩

/-- Embeds `ParseError::not_positional`.  Defined by `parse_error.rs` but never
called anywhere in the compiled crate. -/
def not_positional (msg : String) : ParseError := ⟨.NotPositional, msg, none⟩

/-- Embeds `ParseError::invalid_key`, the `arg_key.rs` failure. -/
def invalid_key : ParseError := ⟨.InvalidKey, "", none⟩

/-- Embeds `ParseError::key(self, k)`: tag the error with a key. -/
def withKey (e : ParseError) (k : Str) : ParseError := { e with key := some k }

end ParseError

/-- Result of a parsing step: success, a `ParseError`, or a Rust panic. -/
inductive PRes (α : Type) where
  | ok (val : α)
  | error (e : ParseError)
  | panic
deriving DecidableEq

/-- Embeds `ArgKey` from `arg_key.rs`: a string wrapper; equality is value-based. -/
structure ArgKey where
  value : Str
deriving DecidableEq

instance : BEq ArgKey := ⟨fun a b => a.value == b.value⟩

instance : LawfulBEq ArgKey where
  eq_of_beq := by
    intro a b h
    cases a
    cases b
    simp only [BEq.beq] at h
    exact congrArg ArgKey.mk (eq_of_beq h)
  rfl := by
    intro a
    simp only [BEq.beq]
    exact beq_self_eq_true a.value

namespace ArgKey

/-- Embeds `ArgKey::is_arg_key`: `value.starts_with('-')`. -/
def is_arg_key (value : Str) : Bool :=
  match value with
  | [] => false
  | c :: _ => c == '-'

/-- Embeds `ArgKey::new`: wrap the token if it is key-shaped, else `InvalidKey`. -/
def new (value : Str) : Except ParseError ArgKey :=
  if is_arg_key value then .ok ⟨value⟩ else .error ParseError.invalid_key

/-- Split a list at the first occurrence of `c`: `some (before, after)`, or
`none` when `c` does not occur.  Models `str::find('=')` plus the two
`get_unchecked` slices in `ArgKey::from_cmd`. -/
def splitFirst (c : Char) : Str → Option (Str × Str)
  | [] => none
  | x :: xs =>
    if x = c then some ([], xs)
    else (splitFirst c xs).map (fun p => (x :: p.1, p.2))

/-- Embeds `ArgKey::from_cmd` (called `ArgKey::parse_arg` at its use site): for a
key-shaped token, split at the first `'='` into key and inline value. -/
def from_cmd (arg : Str) : Except ParseError (ArgKey × Option Str) :=
  match is_arg_key arg with
  | true =>
    match splitFirst '=' arg with
    | some (k, v) => .ok (⟨k⟩, some v)
    | none => .ok (⟨arg⟩, none)
  | false => .error ParseError.invalid_key

end ArgKey

/-- One consumed tier: the positional value and the `(key, value)` pairs, in
parse order (`PositionalParsedArgs` in `parsed_arg.rs`). -/
structure PositionalParsedArgs where
  value : Str
  parameters : List (ArgKey × Str)
deriving DecidableEq

namespace PositionalParsedArgs

/-- Embeds `PositionalParsedArgs::new`. -/
def new (value : Str) : PositionalParsedArgs := ⟨value, []⟩

/-- Embeds `PositionalParsedArgs::add_parametric`: push a `(key, value)` pair. -/
def add_parametric (p : PositionalParsedArgs) (key : ArgKey) (value : Str) :
    PositionalParsedArgs :=
  { p with parameters := p.parameters ++ [(key, value)] }

/-- Embeds `PositionalParsedArgs::first_of`. -/
def first_of (p : PositionalParsedArgs) (key : ArgKey) :
    Option (ArgKey × Str) :=
  p.parameters.find? (fun a => key == a.1)

/-- Embeds `PositionalParsedArgs::filter`. -/
def filterKey (p : PositionalParsedArgs) (key : ArgKey) :
    List (ArgKey × Str) :=
  p.parameters.filter (fun a => key == a.1)

/-- Embeds `PositionalParsedArgs::count`. -/
def count (p : PositionalParsedArgs) (key : ArgKey) : Nat :=
  (p.filterKey key).length

/-- Embeds `PositionalParsedArgs::contains`. -/
def containsKey (p : PositionalParsedArgs) (key : ArgKey) : Bool :=
  (p.first_of key).isSome

end PositionalParsedArgs

/-- Apply `f` to the last element of a list; `none` on the empty list.
Models `args.last_mut().unwrap()` followed by a mutation. -/
def modifyLast (f : α → α) : List α → Option (List α)
  | [] => none
  | [x] => some [f x]
  | x :: y :: xs => (modifyLast f (y :: xs)).map (fun l => x :: l)

/-- Embeds `ParsedArg` from `parsed_arg.rs`: the accumulated tier records.  (The
raw-token cursor travels separately through the parse functions, as in
`arg_parser.rs`.) -/
structure ParsedArg where
  args : List PositionalParsedArgs
deriving DecidableEq

namespace ParsedArg

/-- Embeds `ParsedArg::new` / `Default`. -/
def new : ParsedArg := ⟨[]⟩

/-- Embeds `ParsedArg::current_positional`: `args.last().unwrap().value`; `none`
models the panic on an empty record list. -/
def current_positional (p : ParsedArg) : Option Str :=
  p.args.getLast?.map (fun r => r.value)

/-- Embeds `ParsedArg::first_of`: unwraps the last record (outer `none` = panic),
then looks the key up in it. -/
def first_of (p : ParsedArg) (key : ArgKey) : Option (Option Str) :=
  p.args.getLast?.map (fun r => (r.first_of key).map (fun a => a.2))

/-- Embeds `ParsedArg::filter` (values of all pairs with the key, last record). -/
def filterKey (p : ParsedArg) (key : ArgKey) : Option (List Str) :=
  p.args.getLast?.map (fun r => (r.filterKey key).map (fun a => a.2))

/-- Embeds `ParsedArg::count`: occurrence count of `key` in the last record. -/
def count (p : ParsedArg) (key : ArgKey) : Option Nat :=
  p.args.getLast?.map (fun r => r.count key)

/-- Embeds `ParsedArg::contains`. -/
def containsKey (p : ParsedArg) (key : ArgKey) : Option Bool :=
  p.args.getLast?.map (fun r => r.containsKey key)

/-- Embeds `ParsedArg::positional_argument_size` (a.k.a. `ParsedArg::len`). -/
def positional_argument_size (p : ParsedArg) : Nat := p.args.length

/-- Embeds `ParsedArg::parametric_argument_size`: parameter count of the last
record; `none` models the panic. -/
def parametric_argument_size (p : ParsedArg) : Option Nat :=
  p.args.getLast?.map (fun r => r.parameters.length)

/-- Embeds `ParsedArg::add_positional` (a.k.a. `add_positional_argument`). -/
def add_positional (p : ParsedArg) (value : Str) : ParsedArg :=
  ⟨p.args ++ [PositionalParsedArgs.new value]⟩

/-- Embeds `ParsedArg::add_parametric` (a.k.a. `add_argument`): append a pair to
the last record; `none` models the panic on an empty record list. -/
def add_parametric (p : ParsedArg) (key : ArgKey) (value : Str) :
    Option ParsedArg :=
  (modifyLast (fun r => r.add_parametric key value) p.args).map ParsedArg.mk

end ParsedArg

/-- The closed set of validators of `arg.rs`, as a tagged variant type:
`ArgOptionValidator`, `ArgCountValidator`, `ArgEmptyValidator` and
`DefaultArg`. -/
inductive Validator where
  | option (options : List (Str × Option String))
  | count (minSize maxSize : Nat)
  | empty (allowEmpty : Bool)
  | defaultArg (value : Str)
deriving DecidableEq

namespace Validator

/-- The `ArgValidator::id` of each validator, exactly the strings returned
in `arg.rs`. -/
def idOf : Validator → Option String
  | .option _ => some "Option"
  | .count _ _ => some "ArgCountValidator"
  | .empty _ => some "ArgEmptyValidator"
  | .defaultArg _ => some "DefaultArg"

/-- Embeds `ArgValidator::validate` of each validator.  `option`: `NoValueGiven`
without a value, `InvalidValue` when the value is not in the set.  `empty`:
`NoValueGiven` when a value is required but absent.  `count` and
`defaultArg` keep the trait default (always `Ok`). -/
def validate : Validator → Option Str → Except ParseError Unit
  | .option opts, v =>
    match v with
    | none => .error (ParseError.no_value_given "")
    | some v =>
      match opts.find? (fun o => o.1 == v) with
      | none => .error (ParseError.invalid_value "not a valid option")
      | some _ => .ok ()
  | .count _ _, _ => .ok ()
  | .empty allowEmpty, v =>
    match allowEmpty, v with
    | true, _ => .ok ()
    | false, some _ => .ok ()
    | false, none => .error (ParseError.no_value_given "")
  | .defaultArg _, _ => .ok ()

/-- Embeds `ArgValidator::post_validate` of each validator.  `count`: check the
occurrence count of the key (`1` for the positional `none` case); the
`ParsedArg::count` panic is propagated.  `defaultArg`: inject the default
when the key is present with count zero. -/
def postValidate : Validator → Option ArgKey → ParsedArg → PRes ParsedArg
  | .count minS maxS, k, args =>
    match k with
    | none =>
      if 1 < minS ∨ maxS < 1 then
        .error (ParseError.too_many_value_given "count out of range")
      else .ok args
    | some key =>
      match args.count key with
      | none => .panic
      | some c =>
        if c < minS ∨ maxS < c then
          .error (ParseError.too_many_value_given "count out of range")
        else .ok args
  | .defaultArg d, k, args =>
    match k with
    | none => .ok args
    | some key =>
      match args.count key with
      | none => .panic
      | some 0 =>
        match args.add_parametric key d with
        | none => .panic
        | some args' => .ok args'
      | some (_ + 1) => .ok args
  | .option _, _, args => .ok args
  | .empty _, _, args => .ok args

end Validator

/-- Embeds `Arg` from `arg.rs`: optional help text plus the ordered validators. -/
structure Arg where
  help_text : Option String
  validators : List Validator
deriving DecidableEq

namespace Arg

/-- Embeds `Arg::new` / `Default`. -/
def new : Arg := ⟨none, []⟩

/-- Embeds `ArgValidator::validate` for the `Arg` composite: run every validator in
registration order, short-circuiting on the first error. -/
def validate (a : Arg) (v : Option Str) : Except ParseError Unit :=
  go a.validators v
where
  go : List Validator → Option Str → Except ParseError Unit
    | [], _ => .ok ()
    | val :: rest, v =>
      match val.validate v with
      | .ok _ => go rest v
      | .error e => .error e

/-- Embeds `ArgValidator::post_validate` for the `Arg` composite: fold over the
validators, threading the (mutable) `ParsedArg`. -/
def postValidate (a : Arg) (k : Option ArgKey) (args : ParsedArg) :
    PRes ParsedArg :=
  go a.validators k args
where
  go : List Validator → Option ArgKey → ParsedArg → PRes ParsedArg
    | [], _, args => .ok args
    | val :: rest, k, args =>
      match val.postValidate k args with
      | .ok args' => go rest k args'
      | .error e => .error e
      | .panic => .panic

/-- The builder `Arg::validate(mut self, validator)` of `arg.rs` (named
apart from the checking `Arg::validate` above, which Rust disambiguates as
`ArgValidator::validate`): pushes the validator unconditionally. -/
def validateWith (a : Arg) (v : Validator) : Arg :=
  { a with validators := a.validators ++ [v] }

/-- Embeds `Arg::with_default`. -/
def with_default (a : Arg) (value : Str) : Arg :=
  a.validateWith (.defaultArg value)

/-- The value `u64::MAX`, for the open-ended cardinality builders. -/
def u64Max : Nat := 2 ^ 64 - 1

/-- Embeds `Arg::n_at_least`. -/
def n_at_least (a : Arg) (minSize : Nat) : Arg :=
  a.validateWith (.count minSize u64Max)

/-- Embeds `Arg::n_at_most`. -/
def n_at_most (a : Arg) (maxSize : Nat) : Arg :=
  a.validateWith (.count 0 maxSize)

/-- Embeds `Arg::n_equal_to`. -/
def n_equal_to (a : Arg) (value : Nat) : Arg :=
  a.validateWith (.count value value)

/-- Embeds `Arg::n_range`. -/
def n_range (a : Arg) (minSize maxSize : Nat) : Arg :=
  a.validateWith (.count minSize maxSize)

/-- Embeds `Arg::require_value`. -/
def require_value (a : Arg) : Arg := a.validateWith (.empty false)

/-- Embeds `Arg::as_flag`. -/
def as_flag (a : Arg) : Arg := a.validateWith (.empty true)

/-- Embeds `Arg::required`. -/
def required (a : Arg) : Arg := a.require_value.n_equal_to 1

/-- Embeds `Arg::optional`. -/
def optional (a : Arg) : Arg := a.n_range 0 1

/-- Embeds `Arg::len`: the validator count. -/
def len (a : Arg) : Nat := a.validators.length

end Arg

/-- Embeds `ParamTier` from `arg_parser.rs`: the positional `Arg` of one tier plus
its keyed `Arg`s in registration order. -/
structure ParamTier where
  pos : Arg
  params : List (ArgKey × Arg)
deriving DecidableEq

/-- Error tag of the tier `posId` positional slot:
`format!("arg{}", pos_id)`. -/
def argTag (posId : Nat) : Str := ("arg" ++ toString posId).toList

namespace ParamTier

/-- Embeds `ParamTier::parse_params`: find the keyed `Arg` registered under `key`
(`Ok(false)` when there is none), validate the inline value, and on a
`NoValueGiven` failure advance the cursor once and retry with the next raw
token as the value; on success record `(key, value)` and advance past the
consumed token(s), on failure tag the error with the key.  The cursor `raw`
still holds the key token itself at the head (the caller only peeked). -/
def parseParams (t : ParamTier) (key : ArgKey) (value : Option Str)
    (args : ParsedArg) (raw : List Str) :
    PRes (Bool × ParsedArg × List Str) :=
  match t.params.find? (fun p => p.1 == key) with
  | none => .ok (false, args, raw)
  | some (_, arg) =>
    match arg.validate value with
    | .ok _ =>
      match args.add_parametric key (value.getD []) with
      | none => .panic
      | some args' => .ok (true, args', raw.drop 1)
    | .error e =>
      if e.kind = ParseErrorKind.NoValueGiven then
        match arg.validate (raw.drop 1).head? with
        | .ok _ =>
          match args.add_parametric key (((raw.drop 1).head?).getD []) with
          | none => .panic
          | some args' => .ok (true, args', raw.drop 2)
        | .error e2 => .error (e2.withKey key.value)
      else .error (e.withKey key.value)

/-- The keyed-argument loop of `ParamTier::parse` (the `while is_parser_run`
loop): peek the next token, stop if it is not key-shaped or matches no
registered key, otherwise run the `parse_params` step and continue.  The
`parse_params` body is unfolded into the branches here so that the
recursion is structural on the cursor; `paramsLoop_step` below proves each
branch equal to a `parseParams` call. -/
def paramsLoop (params : List (ArgKey × Arg)) (args : ParsedArg) :
    List Str → PRes (ParsedArg × List Str)
  | [] => .ok (args, [])
  | current :: rest =>
    match ArgKey.from_cmd current with
    | .error _ => .ok (args, current :: rest)
    | .ok (key, value) =>
      match params.find? (fun p => p.1 == key) with
      | none => .ok (args, current :: rest)
      | some (_, arg) =>
        match arg.validate value with
        | .ok _ =>
          match args.add_parametric key (value.getD []) with
          | none => .panic
          | some args' => paramsLoop params args' rest
        | .error e =>
          if e.kind = ParseErrorKind.NoValueGiven then
            match rest with
            | [] =>
              match arg.validate none with
              | .ok _ =>
                match args.add_parametric key [] with
                | none => .panic
                | some args' => paramsLoop params args' []
              | .error e2 => .error (e2.withKey key.value)
            | next :: rest2 =>
              match arg.validate (some next) with
              | .ok _ =>
                match args.add_parametric key next with
                | none => .panic
                | some args' => paramsLoop params args' rest2
              | .error e2 => .error (e2.withKey key.value)
          else .error (e.withKey key.value)

/-- The post-validation sweep at the end of `ParamTier::parse`: run
`post_validate` of every keyed `Arg` of the tier, tagging each failure with
its key. -/
def runPostValidators : List (ArgKey × Arg) → ParsedArg → PRes ParsedArg
  | [], args => .ok args
  | (k, arg) :: rest, args =>
    match arg.postValidate (some k) args with
    | .ok args' => runPostValidators rest args'
    | .error e => .error (e.withKey k.value)
    | .panic => .panic

/-- Embeds `ParamTier::parse`: optionally consume one positional token (failing
when it is key-shaped, validating it, pushing the record and running the
positional `Arg`'s post_validate), then run the keyed-argument loop, then
post-validate every keyed `Arg` of the tier. -/
def parse (t : ParamTier) (posId : Nat) (args : ParsedArg) (raw : List Str)
    (parsePositional : Bool) : PRes (ParsedArg × List Str) :=
  match
    (if parsePositional then
      match raw with
      | [] => .ok (args, raw)
      | current :: rest =>
        if ArgKey.is_arg_key current then
          .error ((ParseError.invalid_value "expected args instead of kwargs").withKey
            (argTag posId))
        else
          match t.pos.validate (some current) with
          | .error e => .error (e.withKey (argTag posId))
          | .ok _ =>
            match t.pos.postValidate none (args.add_positional current) with
            | .panic => .panic
            | .error e => .error (e.withKey (argTag posId))
            | .ok args2 => .ok (args2, rest)
    else .ok (args, raw) : PRes (ParsedArg × List Str)) with
  | .error e => .error e
  | .panic => .panic
  | .ok (args1, raw1) =>
    match paramsLoop t.params args1 raw1 with
    | .error e => .error e
    | .panic => .panic
    | .ok (args2, raw2) =>
      match runPostValidators t.params args2 with
      | .error e => .error e
      | .panic => .panic
      | .ok args3 => .ok (args3, raw2)

end ParamTier

/-- Embeds `ArgParser` from `arg_parser.rs`: the ordered tiers. -/
structure ArgParser where
  args : List ParamTier
deriving DecidableEq

namespace ArgParser

/-- Embeds `ArgParser::default`: one tier whose positional `Arg` is
`Arg::new().require_value()`. -/
def default : ArgParser := ⟨[⟨Arg.new.require_value, []⟩]⟩

/-- Embeds `ArgParser::len`. -/
def len (p : ArgParser) : Nat := p.args.length

/-- The `for i in arg_beg_id..self.len()` loop of
`ArgParser::incremental_parse`, walking the tier suffix that starts at
index `i`: each tier is parsed with
`should_consume_positional = (args.len() <= i)`, re-read from the growing
result at every iteration, and the first error or panic aborts. -/
def runTiers : List ParamTier → Nat → ParsedArg → List Str →
    PRes (ParsedArg × List Str)
  | [], _, args, raw => .ok (args, raw)
  | t :: ts, i, args, raw =>
    match t.parse i args raw (decide (args.args.length ≤ i)) with
    | .ok (args', raw') => runTiers ts (i + 1) args' raw'
    | .error e => .error e
    | .panic => .panic

/-- The loop of `incremental_parse` started at tier index `i`. -/
def runFrom (p : ArgParser) (i : Nat) (args : ParsedArg) (raw : List Str) :
    PRes (ParsedArg × List Str) :=
  runTiers (p.args.drop i) i args raw

/-- Embeds `ArgParser::incremental_parse`: resume at
`match args.len() { 0 => 0, v => v - 1 }`. -/
def incrementalParse (p : ArgParser) (args : ParsedArg) (raw : List Str) :
    PRes (ParsedArg × List Str) :=
  p.runFrom
    (match args.args.length with
      | 0 => 0
      | v => v - 1)
    args raw

/-- Embeds `ArgParser::parse`: `incremental_parse` from an empty result. -/
def parse (p : ArgParser) (raw : List Str) : PRes ParsedArg :=
  match p.incrementalParse ParsedArg.new raw with
  | .ok (args, _) => .ok args
  | .error e => .error e
  | .panic => .panic

/-- Replace the positional `Arg` of the tier at index `i` (identity when `i`
is out of range).  Used to state that a tier whose record already exists
never consults its positional `Arg` again. -/
def setPosList : List ParamTier → Nat → Arg → List ParamTier
  | [], _, _ => []
  | t :: ts, 0, pos => { t with pos := pos } :: ts
  | t :: ts, n + 1, pos => t :: setPosList ts n pos

/-- Lifts `setPosList` to a parser. -/
def setPosAt (p : ArgParser) (i : Nat) (pos : Arg) : ArgParser :=
  ⟨setPosList p.args i pos⟩

end ArgParser

/-- The key shape the specification asserts for `ArgKey`: `-` followed by
exactly one character, or `--` followed by two or more characters.  Stated
from the spec's words, to be compared with the source's
`ArgKey.is_arg_key`. -/
def specKeyShape (s : Str) : Bool :=
  match s with
  | '-' :: '-' :: rest => decide (2 ≤ rest.length)
  | '-' :: rest => decide (rest.length = 1)
  | _ => false

/-- Shape preservation between two `ParsedArg`s: same record count, same
positional values, and all records but the last unchanged.  This is the
effect footprint of every record mutation except `add_positional`: only the
last record's parameter list may grow. -/
def SameShape (a b : ParsedArg) : Prop :=
  b.args.length = a.args.length ∧
  b.args.map PositionalParsedArgs.value = a.args.map PositionalParsedArgs.value ∧
  b.args.take (a.args.length - 1) = a.args.take (a.args.length - 1)

end Clrust

namespace Clrust

/-- A successful `modifyLast` splits the list into an unchanged prefix and a
modified last element. -/
theorem modifyLast_eq_some {α : Type} {f : α → α} :
    ∀ {l l' : List α}, modifyLast f l = some l' →
      ∃ init x, l = init ++ [x] ∧ l' = init ++ [f x] := by
  intro l
  induction l with
  | nil => intro l' h; simp [modifyLast] at h
  | cons a as ih =>
    intro l' h
    cases as with
    | nil =>
      simp [modifyLast] at h
      exact ⟨[], a, rfl, by simp [← h]⟩
    | cons b bs =>
      simp only [modifyLast, Option.map_eq_some'] at h
      obtain ⟨m, hm, hl⟩ := h
      obtain ⟨init, x, h1, h2⟩ := ih hm
      exact ⟨a :: init, x, by simp [h1], by simp [← hl, h2]⟩

/-- On a non-empty list `modifyLast` succeeds. -/
theorem modifyLast_isSome {α : Type} (f : α → α) :
    ∀ (l : List α), l ≠ [] → ∃ l', modifyLast f l = some l' := by
  intro l
  induction l with
  | nil => intro h; exact absurd rfl h
  | cons a as ih =>
    intro _
    cases as with
    | nil => exact ⟨[f a], rfl⟩
    | cons b bs =>
      obtain ⟨m, hm⟩ := ih (by simp)
      exact ⟨a :: m, by simp [modifyLast, hm]⟩

/-- A successful `ParsedArg.add_parametric` rewrites only the last record. -/
theorem add_parametric_eq_some {p p' : ParsedArg} {k : ArgKey} {v : Str}
    (h : p.add_parametric k v = some p') :
    ∃ init r, p.args = init ++ [r] ∧
      p'.args = init ++ [r.add_parametric k v] := by
  simp only [ParsedArg.add_parametric, Option.map_eq_some'] at h
  obtain ⟨m, hm, hl⟩ := h
  obtain ⟨init, x, h1, h2⟩ := modifyLast_eq_some hm
  exact ⟨init, x, h1, by rw [← hl, h2]⟩

/-- With at least one record present, `add_parametric` does not panic. -/
theorem add_parametric_isSome {p : ParsedArg} (k : ArgKey) (v : Str)
    (h : p.args ≠ []) : ∃ p', p.add_parametric k v = some p' := by
  obtain ⟨l', hl⟩ := modifyLast_isSome (fun r => r.add_parametric k v) p.args h
  exact ⟨⟨l'⟩, by simp [ParsedArg.add_parametric, hl]⟩

/-- Reflexivity of `SameShape`. -/
theorem sameShape_refl (a : ParsedArg) : SameShape a a := ⟨rfl, rfl, rfl⟩

/-- Transitivity of `SameShape`. -/
theorem sameShape_trans {a b c : ParsedArg} (h1 : SameShape a b)
    (h2 : SameShape b c) : SameShape a c := by
  obtain ⟨l1, v1, t1⟩ := h1
  obtain ⟨l2, v2, t2⟩ := h2
  refine ⟨l2.trans l1, v2.trans v1, ?_⟩
  rw [l1] at t2
  exact t2.trans t1

/-- Appending a parameter pair preserves the record shape. -/
theorem add_parametric_sameShape {p p' : ParsedArg} {k : ArgKey} {v : Str}
    (h : p.add_parametric k v = some p') : SameShape p p' := by
  obtain ⟨init, r, h1, h2⟩ := add_parametric_eq_some h
  refine ⟨?_, ?_, ?_⟩
  · simp [h1, h2]
  · simp [h1, h2, PositionalParsedArgs.add_parametric]
  · have hlen : p.args.length - 1 = init.length := by simp [h1]
    rw [hlen, h1, h2]
    rw [List.take_left, List.take_left]

end Clrust

namespace Clrust

/-- Appending a pair for key `k` increments the count of `k` by one. -/
theorem count_add_parametric_self {p p' : ParsedArg} {k : ArgKey} {v : Str}
    (h : p.add_parametric k v = some p') :
    p'.count k = (p.count k).map (fun c => c + 1) := by
  obtain ⟨init, r, h1, h2⟩ := add_parametric_eq_some h
  simp [ParsedArg.count, h1, h2, PositionalParsedArgs.count,
    PositionalParsedArgs.filterKey, PositionalParsedArgs.add_parametric,
    List.filter_append]

/-- A successful validator `post_validate` preserves the record shape: it
either leaves the result alone or appends a pair to the last record. -/
theorem validator_postValidate_ok_sameShape {val : Validator} {k : Option ArgKey}
    {args args' : ParsedArg} (h : val.postValidate k args = .ok args') :
    SameShape args args' := by
  cases val with
  | option opts =>
    simp only [Validator.postValidate] at h
    cases h
    exact sameShape_refl _
  | empty b =>
    simp only [Validator.postValidate] at h
    cases h
    exact sameShape_refl _
  | count minS maxS =>
    cases k with
    | none =>
      simp only [Validator.postValidate] at h
      split at h
      · simp at h
      · cases h; exact sameShape_refl _
    | some key =>
      simp only [Validator.postValidate] at h
      cases hc : args.count key with
      | none => simp only [hc] at h; cases h
      | some c =>
        simp only [hc] at h
        split at h
        · simp at h
        · cases h; exact sameShape_refl _
  | defaultArg d =>
    cases k with
    | none =>
      simp only [Validator.postValidate] at h
      cases h
      exact sameShape_refl _
    | some key =>
      simp only [Validator.postValidate] at h
      cases hc : args.count key with
      | none => simp only [hc] at h; cases h
      | some c =>
        cases c with
        | zero =>
          simp only [hc] at h
          cases ha : args.add_parametric key d with
          | none => simp only [ha] at h; cases h
          | some a' =>
            simp only [ha] at h
            cases h
            exact add_parametric_sameShape ha
        | succ n =>
          simp only [hc] at h
          cases h
          exact sameShape_refl _

/-- The validator fold of `Arg.postValidate` preserves the record shape. -/
theorem argPostGo_sameShape :
    ∀ (vals : List Validator) (k : Option ArgKey) (args args' : ParsedArg),
      Arg.postValidate.go vals k args = .ok args' → SameShape args args' := by
  intro vals
  induction vals with
  | nil =>
    intro k args args' h
    cases h
    exact sameShape_refl _
  | cons val rest ih =>
    intro k args args' h
    simp only [Arg.postValidate.go] at h
    cases hv : val.postValidate k args with
    | ok a1 =>
      rw [hv] at h
      exact sameShape_trans (validator_postValidate_ok_sameShape hv) (ih k a1 args' h)
    | error e => rw [hv] at h; cases h
    | panic => rw [hv] at h; cases h

/-- A successful `Arg.postValidate` preserves the record shape. -/
theorem arg_postValidate_sameShape {a : Arg} {k : Option ArgKey}
    {args args' : ParsedArg} (h : a.postValidate k args = .ok args') :
    SameShape args args' :=
  argPostGo_sameShape a.validators k args args' h

/-- The per-tier post-validation sweep preserves the record shape. -/
theorem runPostValidators_sameShape :
    ∀ (params : List (ArgKey × Arg)) (args args' : ParsedArg),
      ParamTier.runPostValidators params args = .ok args' → SameShape args args' := by
  intro params
  induction params with
  | nil =>
    intro args args' h
    cases h
    exact sameShape_refl _
  | cons p rest ih =>
    intro args args' h
    simp only [ParamTier.runPostValidators] at h
    cases hv : (p.2).postValidate (some p.1) args with
    | ok a1 =>
      rw [hv] at h
      exact sameShape_trans (arg_postValidate_sameShape hv) (ih a1 args' h)
    | error e => rw [hv] at h; cases h
    | panic => rw [hv] at h; cases h

end Clrust

namespace Clrust

/-- The keyed-argument loop preserves the record shape: it never pushes or
removes records and touches only the last record's parameters. -/
theorem paramsLoop_sameShape :
    ∀ (params : List (ArgKey × Arg)) (args : ParsedArg) (raw : List Str)
      (args' : ParsedArg) (raw' : List Str),
      ParamTier.paramsLoop params args raw = .ok (args', raw') →
      SameShape args args' := by
  intro params args raw
  induction args, raw using ParamTier.paramsLoop.induct params with
  | case1 args =>
    intro args' raw' h
    cases h
    exact sameShape_refl _
  | case2 args next rest2 a hfc =>
    intro args' raw' h
    simp only [ParamTier.paramsLoop, hfc] at h
    cases h
    exact sameShape_refl _
  | case3 args next rest2 key value hfc hfind =>
    intro args' raw' h
    simp only [ParamTier.paramsLoop, hfc, hfind] at h
    cases h
    exact sameShape_refl _
  | case4 args next rest2 key value hfc fst arg hfind a hval hadd =>
    intro args' raw' h
    simp only [ParamTier.paramsLoop, hfc, hfind, hval, hadd] at h
    cases h
  | case5 args next rest2 key value hfc fst arg hfind a hval args1 hadd ih =>
    intro args' raw' h
    simp only [ParamTier.paramsLoop, hfc, hfind, hval, hadd] at h
    exact sameShape_trans (add_parametric_sameShape hadd) (ih args' raw' h)
  | case6 args next key value hfc fst arg hfind e hval hkind a hval2 hadd =>
    intro args' raw' h
    simp [ParamTier.paramsLoop, hfc, hfind, hval, hkind, hval2, hadd] at h
  | case7 args next key value hfc fst arg hfind e hval hkind a hval2 args1 hadd ih =>
    intro args' raw' h
    simp only [ParamTier.paramsLoop, hfc, hfind, hval, hkind, if_pos, hval2, hadd] at h
    exact sameShape_trans (add_parametric_sameShape hadd) (ih args' raw' h)
  | case8 args next key value hfc fst arg hfind e hval hkind e2 hval2 =>
    intro args' raw' h
    simp [ParamTier.paramsLoop, hfc, hfind, hval, hkind, hval2] at h
  | case9 args next key value hfc fst arg hfind e hval hkind next1 rest2 a hval2 hadd =>
    intro args' raw' h
    simp [ParamTier.paramsLoop, hfc, hfind, hval, hkind, hval2, hadd] at h
  | case10 args next key value hfc fst arg hfind e hval hkind next1 rest2 a hval2 args1 hadd ih =>
    intro args' raw' h
    simp only [ParamTier.paramsLoop, hfc, hfind, hval, hkind, if_pos, hval2, hadd] at h
    exact sameShape_trans (add_parametric_sameShape hadd) (ih args' raw' h)
  | case11 args next key value hfc fst arg hfind e hval hkind next1 rest2 e2 hval2 =>
    intro args' raw' h
    simp [ParamTier.paramsLoop, hfc, hfind, hval, hkind, hval2] at h
  | case12 args next rest2 key value hfc fst arg hfind e hval hkind =>
    intro args' raw' h
    simp [ParamTier.paramsLoop, hfc, hfind, hval, hkind] at h

end Clrust

namespace Clrust

/-- Two lists agreeing on a prefix agree on any shorter prefix. -/
theorem take_eq_of_take_eq {α : Type} {l l' : List α} {m k : Nat}
    (h : l'.take m = l.take m) (hk : k ≤ m) : l'.take k = l.take k := by
  have h1 : l'.take k = (l'.take m).take k := by
    rw [List.take_take, min_eq_left hk]
  have h2 : l.take k = (l.take m).take k := by
    rw [List.take_take, min_eq_left hk]
  rw [h1, h2, h]

/-- Effect of one tier parse on the records: the record list never shrinks,
grows by at most one record (and only when `should_consume_positional` is
set), leaves all previously complete records unchanged, and preserves the
positional values that existed on entry. -/
theorem tier_parse_shape {t : ParamTier} {posId : Nat} {args : ParsedArg}
    {raw : List Str} {flag : Bool} {args' : ParsedArg} {raw' : List Str}
    (h : t.parse posId args raw flag = .ok (args', raw')) :
    args.args.length ≤ args'.args.length ∧
    args'.args.length ≤ args.args.length + (if flag then 1 else 0) ∧
    args'.args.take (args.args.length - 1) = args.args.take (args.args.length - 1) ∧
    (args'.args.map PositionalParsedArgs.value).take args.args.length
      = (args.args.map PositionalParsedArgs.value).take args.args.length := by
  have tail : ∀ (args1 : ParsedArg) (raw1 : List Str),
      (match ParamTier.paramsLoop t.params args1 raw1 with
        | PRes.error e => PRes.error e
        | PRes.panic => PRes.panic
        | PRes.ok (args2, raw2) =>
          match ParamTier.runPostValidators t.params args2 with
          | PRes.error e => PRes.error e
          | PRes.panic => PRes.panic
          | PRes.ok args3 => PRes.ok (args3, raw2)) = PRes.ok (args', raw') →
      SameShape args1 args' := by
    intro args1 raw1 hh
    cases hl : ParamTier.paramsLoop t.params args1 raw1 with
    | error e => rw [hl] at hh; cases hh
    | panic => rw [hl] at hh; cases hh
    | ok pr =>
      obtain ⟨args2, raw2⟩ := pr
      rw [hl] at hh
      cases hp : ParamTier.runPostValidators t.params args2 with
      | error e => simp only [hp] at hh; cases hh
      | panic => simp only [hp] at hh; cases hh
      | ok args3 =>
        simp only [hp] at hh
        cases hh
        exact sameShape_trans (paramsLoop_sameShape _ _ _ _ _ hl)
          (runPostValidators_sameShape _ _ _ hp)
  cases flag with
  | false =>
    simp only [ParamTier.parse, Bool.false_eq_true, if_false] at h
    obtain ⟨hlen, hvals, htake⟩ := tail args raw h
    refine ⟨le_of_eq hlen.symm, ?_, htake, by rw [hvals]⟩
    simp only [Bool.false_eq_true, if_false]
    omega
  | true =>
    cases raw with
    | nil =>
      simp only [ParamTier.parse, if_true] at h
      obtain ⟨hlen, hvals, htake⟩ := tail args [] h
      refine ⟨le_of_eq hlen.symm, ?_, htake, by rw [hvals]⟩
      simp only [if_true]
      omega
    | cons current rest =>
      simp only [ParamTier.parse, if_true] at h
      cases hk : ArgKey.is_arg_key current with
      | true => simp only [hk] at h; cases h
      | false =>
        simp only [hk] at h
        cases hv : t.pos.validate (some current) with
        | error e => simp only [hv] at h; cases h
        | ok u =>
          simp only [hv] at h
          cases hpv : t.pos.postValidate none (args.add_positional current) with
          | panic => simp only [hpv] at h; cases h
          | error e => simp only [hpv] at h; cases h
          | ok args2 =>
            simp only [hpv] at h
            have hs1 : SameShape (args.add_positional current) args2 :=
              arg_postValidate_sameShape hpv
            obtain ⟨hlen, hvals, htake⟩ := sameShape_trans hs1 (tail args2 rest h)
            have hlen1 : (args.add_positional current).args.length
                = args.args.length + 1 := by
              simp [ParsedArg.add_positional]
            have htake1 : (args.add_positional current).args.take
                args.args.length = args.args := by
              simp only [ParsedArg.add_positional]
              exact List.take_left _ _
            have hvals1 : (args.add_positional current).args.map
                PositionalParsedArgs.value
                = args.args.map PositionalParsedArgs.value
                  ++ [(PositionalParsedArgs.new current).value] := by
              simp [ParsedArg.add_positional]
            have e1 : (args.add_positional current).args.length - 1
                = args.args.length := by omega
            rw [e1] at htake
            rw [htake1] at htake
            refine ⟨?_, ?_, ?_, ?_⟩
            · omega
            · simp only [if_true]
              omega
            · have h2 : args.args.length - 1 ≤ args.args.length := by omega
              calc args'.args.take (args.args.length - 1)
                  = (args'.args.take args.args.length).take
                      (args.args.length - 1) := by
                    rw [List.take_take, min_eq_left h2]
              _ = args.args.take (args.args.length - 1) := by rw [htake]
            · rw [hvals, hvals1]
              have hml : (args.args.map PositionalParsedArgs.value).length
                  = args.args.length := by simp
              rw [← hml, List.take_left, List.take_length]

end Clrust

namespace Clrust

/-- Through the tier loop the record count never shrinks, and it never
exceeds the index range of the tiers that ran. -/
theorem runTiers_len_bound :
    ∀ (ts : List ParamTier) (i : Nat) (args : ParsedArg) (raw : List Str)
      (args' : ParsedArg) (raw' : List Str),
      ArgParser.runTiers ts i args raw = .ok (args', raw') →
      args.args.length ≤ args'.args.length ∧
      (args'.args.length ≤ args.args.length ∨ args'.args.length ≤ i + ts.length) := by
  intro ts
  induction ts with
  | nil =>
    intro i args raw args' raw' h
    cases h
    exact ⟨le_refl _, Or.inl (le_refl _)⟩
  | cons t rest ih =>
    intro i args raw args' raw' h
    simp only [ArgParser.runTiers] at h
    cases hp : t.parse i args raw (decide (args.args.length ≤ i)) with
    | error e => rw [hp] at h; cases h
    | panic => rw [hp] at h; cases h
    | ok pr =>
      obtain ⟨args1, raw1⟩ := pr
      rw [hp] at h
      obtain ⟨hm, hb, _, _⟩ := tier_parse_shape hp
      obtain ⟨hm2, hb2⟩ := ih (i + 1) args1 raw1 args' raw' h
      refine ⟨le_trans hm hm2, ?_⟩
      by_cases hcase : args.args.length ≤ i
      · simp [hcase] at hb
        right
        rcases hb2 with h2 | h2
        · simp only [List.length_cons]
          omega
        · simp only [List.length_cons]
          omega
      · simp [hcase] at hb
        rcases hb2 with h2 | h2
        · left; omega
        · right
          simp only [List.length_cons]
          omega

/-- The tier loop leaves the first `n0 - 1` records and the first `n0`
positional values unchanged, provided `n0` records existed on entry. -/
theorem runTiers_preserve (n0 : Nat) :
    ∀ (ts : List ParamTier) (i : Nat) (args : ParsedArg) (raw : List Str)
      (args' : ParsedArg) (raw' : List Str),
      ArgParser.runTiers ts i args raw = .ok (args', raw') →
      n0 ≤ args.args.length →
      args'.args.take (n0 - 1) = args.args.take (n0 - 1) ∧
      (args'.args.map PositionalParsedArgs.value).take n0
        = (args.args.map PositionalParsedArgs.value).take n0 ∧
      n0 ≤ args'.args.length := by
  intro ts
  induction ts with
  | nil =>
    intro i args raw args' raw' h hn
    cases h
    exact ⟨rfl, rfl, hn⟩
  | cons t rest ih =>
    intro i args raw args' raw' h hn
    simp only [ArgParser.runTiers] at h
    cases hp : t.parse i args raw (decide (args.args.length ≤ i)) with
    | error e => rw [hp] at h; cases h
    | panic => rw [hp] at h; cases h
    | ok pr =>
      obtain ⟨args1, raw1⟩ := pr
      rw [hp] at h
      obtain ⟨hm, _, htake, hvals⟩ := tier_parse_shape hp
      have hn1 : n0 ≤ args1.args.length := le_trans hn hm
      obtain ⟨ih1, ih2, ih3⟩ := ih (i + 1) args1 raw1 args' raw' h hn1
      refine ⟨?_, ?_, ih3⟩
      · have s1 : args1.args.take (n0 - 1) = args.args.take (n0 - 1) :=
          take_eq_of_take_eq htake (by omega)
        have s2 : args'.args.take (n0 - 1) = args1.args.take (n0 - 1) :=
          take_eq_of_take_eq
            (take_eq_of_take_eq ih1 (le_refl _)) (le_refl _)
        rw [s2, s1]
      · have s1 : (args1.args.map PositionalParsedArgs.value).take n0
            = (args.args.map PositionalParsedArgs.value).take n0 :=
          take_eq_of_take_eq hvals hn
        rw [ih2, s1]

end Clrust

namespace Clrust

/-- With `should_consume_positional` false, a tier parse never consults the
tier's positional `Arg`. -/
theorem tier_parse_pos_irrelevant (t : ParamTier) (pos' : Arg) (posId : Nat)
    (args : ParsedArg) (raw : List Str) :
    ParamTier.parse ⟨pos', t.params⟩ posId args raw false
      = t.parse posId args raw false := rfl

/-- Out-of-range `setPosList` is the identity. -/
theorem setPosList_ge : ∀ (l : List ParamTier) (i : Nat) (pos : Arg),
    l.length ≤ i → ArgParser.setPosList l i pos = l := by
  intro l
  induction l with
  | nil => intro i pos _; cases i <;> rfl
  | cons t ts ih =>
    intro i pos hi
    cases i with
    | zero => simp at hi
    | succ n =>
      simp only [ArgParser.setPosList]
      rw [ih n pos (by simpa using hi)]

/-- Dropping to the modified index exposes the replaced tier, with the
remaining tiers unchanged. -/
theorem setPosList_drop : ∀ (l : List ParamTier) (i : Nat) (pos : Arg),
    i < l.length →
    ∃ t rest, l.drop i = t :: rest ∧
      (ArgParser.setPosList l i pos).drop i = ⟨pos, t.params⟩ :: rest := by
  intro l
  induction l with
  | nil => intro i pos hi; simp at hi
  | cons t ts ih =>
    intro i pos hi
    cases i with
    | zero =>
      exact ⟨t, ts, rfl, rfl⟩
    | succ n =>
      obtain ⟨t1, rest, h1, h2⟩ := ih n pos (by simpa using hi)
      exact ⟨t1, rest, h1, h2⟩

/-- Splitting at a character that does not occur yields `none`. -/
theorem splitFirst_of_not_mem {c : Char} :
    ∀ {l : Str}, c ∉ l → ArgKey.splitFirst c l = none := by
  intro l
  induction l with
  | nil => intro _; rfl
  | cons x xs ih =>
    intro h
    have hx : ¬x = c := fun e => h (e ▸ List.mem_cons_self x xs)
    simp only [ArgKey.splitFirst, if_neg hx]
    rw [ih (fun hm => h (List.mem_cons_of_mem x hm))]
    rfl

/-- Splitting `k ++ c :: v` at `c` yields `(k, v)` when `c` is not in `k`. -/
theorem splitFirst_append {c : Char} :
    ∀ {k : Str} (v : Str), c ∉ k →
      ArgKey.splitFirst c (k ++ c :: v) = some (k, v) := by
  intro k
  induction k with
  | nil => intro v _; simp [ArgKey.splitFirst]
  | cons x xs ih =>
    intro v h
    have hx : ¬x = c := fun e => h (e ▸ List.mem_cons_self x xs)
    simp only [List.cons_append, ArgKey.splitFirst, if_neg hx, List.append_eq]
    rw [ih v (fun hm => h (List.mem_cons_of_mem x hm))]
    rfl

/-- Key-shapedness is preserved by appending (only the head matters). -/
theorem is_arg_key_append {k l : Str} (h : ArgKey.is_arg_key k = true) :
    ArgKey.is_arg_key (k ++ l) = true := by
  cases k with
  | nil => simp [ArgKey.is_arg_key] at h
  | cons c cs => simpa [ArgKey.is_arg_key] using h

/-- Parsing the token `k=v` yields key `k` with inline value `v`. -/
theorem from_cmd_inline {k : Str} (v : Str) (hk : ArgKey.is_arg_key k = true)
    (hne : '=' ∉ k) :
    ArgKey.from_cmd (k ++ '=' :: v) = .ok (⟨k⟩, some v) := by
  simp only [ArgKey.from_cmd, is_arg_key_append hk, splitFirst_append v hne]

/-- Parsing the bare token `k` yields key `k` and no inline value. -/
theorem from_cmd_plain {k : Str} (hk : ArgKey.is_arg_key k = true)
    (hne : '=' ∉ k) : ArgKey.from_cmd k = .ok (⟨k⟩, none) := by
  simp only [ArgKey.from_cmd, hk, splitFirst_of_not_mem hne]

end Clrust

namespace Clrust

/-- Fidelity of the unfolded loop: one iteration of `paramsLoop` on a
key-shaped token is exactly a `ParamTier.parseParams` step followed by the
loop on the remaining cursor (continue on an `Ok(true)`, stop on an
`Ok(false)`, abort on error or panic), as in the `while is_parser_run`
loop of `ParamTier::parse`. -/
theorem paramsLoop_eq_parseParams_step (t : ParamTier) (args : ParsedArg)
    (current : Str) (rest : List Str) (key : ArgKey) (value : Option Str)
    (hfc : ArgKey.from_cmd current = .ok (key, value)) :
    ParamTier.paramsLoop t.params args (current :: rest) =
      match t.parseParams key value args (current :: rest) with
      | .ok (true, args1, raw1) => ParamTier.paramsLoop t.params args1 raw1
      | .ok (false, args1, raw1) => .ok (args1, raw1)
      | .error e => .error e
      | .panic => .panic := by
  rw [ParamTier.paramsLoop]
  simp only [hfc, ParamTier.parseParams]
  cases hfind : t.params.find? (fun p => p.1 == key) with
  | none => rfl
  | some pa =>
    obtain ⟨fst, arg⟩ := pa
    cases hval : arg.validate value with
    | ok u =>
      simp only [hval]
      cases hadd : args.add_parametric key (value.getD []) with
      | none => simp only [hadd]
      | some args1 => simp [hadd]
    | error e =>
      simp only [hval]
      by_cases hkind : e.kind = ParseErrorKind.NoValueGiven
      · simp only [hkind, if_pos]
        cases rest with
        | nil =>
          simp only [List.drop_succ_cons, List.drop_nil, List.head?_nil]
          cases hv2 : arg.validate none with
          | ok u2 =>
            simp only [hv2, Option.getD_none]
            cases hadd : args.add_parametric key [] with
            | none => simp only [hadd]
            | some args1 => simp [hadd]
          | error e2 => simp only [hv2]
        | cons next rest2 =>
          simp only [List.drop_succ_cons, List.drop_zero, List.head?_cons]
          cases hv2 : arg.validate (some next) with
          | ok u2 =>
            simp only [hv2, Option.getD_some]
            cases hadd : args.add_parametric key next with
            | none => simp only [hadd]
            | some args1 => simp [hadd]
          | error e2 => simp only [hv2]
      · simp only [if_neg hkind]

end Clrust

namespace Clrust

/-- Claim C1 (confirmed): for a keyed `Arg` registered in a tier under a key
`k` that requires a value (it rejects an absent value with `NoValueGiven`
and accepts any present value), and any value `v` that is not key-shaped,
the single token `k=v` and the token pair `k`, `v` parse to the same
`parse_params` success, appending the identical `(k, v)` pair to the
current tier record and leaving the same cursor. -/
theorem C1_key_value_forms_agree (t : ParamTier) (k v : Str) (rest : List Str)
    (kk : ArgKey) (arg : Arg) (args : ParsedArg)
    (hk : ArgKey.is_arg_key k = true)
    (hne : '=' ∉ k)
    (hv : ArgKey.is_arg_key v = false)
    (hfind : t.params.find? (fun p => p.1 == ArgKey.mk k) = some (kk, arg))
    (hnone : ∃ e, arg.validate none = .error e ∧ e.kind = ParseErrorKind.NoValueGiven)
    (hsome : ∀ s, arg.validate (some s) = .ok ())
    (hrec : args.args ≠ []) :
    ArgKey.from_cmd (k ++ '=' :: v) = .ok (⟨k⟩, some v)
    ∧ ArgKey.from_cmd k = .ok (⟨k⟩, none)
    ∧ ∃ args2, args.add_parametric ⟨k⟩ v = some args2
      ∧ t.parseParams ⟨k⟩ (some v) args ((k ++ '=' :: v) :: rest)
          = .ok (true, args2, rest)
      ∧ t.parseParams ⟨k⟩ none args (k :: v :: rest)
          = .ok (true, args2, rest) := by
  obtain ⟨args2, hadd⟩ := add_parametric_isSome (ArgKey.mk k) v hrec
  refine ⟨from_cmd_inline v hk hne, from_cmd_plain hk hne, args2, hadd, ?_, ?_⟩
  · simp only [ParamTier.parseParams, hfind, hsome v, Option.getD_some, hadd,
      List.drop_succ_cons, List.drop_zero]
  · obtain ⟨e, he, hkind⟩ := hnone
    simp only [ParamTier.parseParams, hfind, he, hkind, if_pos,
      List.drop_succ_cons, List.drop_zero, List.head?_cons, hsome v,
      Option.getD_some, hadd]

end Clrust

namespace Clrust

/-- Witness for C1 at `--name=Ada` versus `--name Ada`. -/
theorem C1_key_value_forms_agree_witness :
    ArgKey.from_cmd ("--name".toList ++ '=' :: "Ada".toList)
      = .ok (⟨"--name".toList⟩, some "Ada".toList)
    ∧ ArgKey.from_cmd "--name".toList = .ok (⟨"--name".toList⟩, none)
    ∧ ∃ args2, (ParsedArg.mk [⟨"build".toList, []⟩]).add_parametric
          ⟨"--name".toList⟩ "Ada".toList = some args2
      ∧ (ParamTier.mk Arg.new [(⟨"--name".toList⟩, Arg.new.require_value)]).parseParams
          ⟨"--name".toList⟩ (some "Ada".toList) (ParsedArg.mk [⟨"build".toList, []⟩])
          (("--name".toList ++ '=' :: "Ada".toList) :: [])
          = .ok (true, args2, [])
      ∧ (ParamTier.mk Arg.new [(⟨"--name".toList⟩, Arg.new.require_value)]).parseParams
          ⟨"--name".toList⟩ none (ParsedArg.mk [⟨"build".toList, []⟩])
          ("--name".toList :: "Ada".toList :: [])
          = .ok (true, args2, []) :=
  C1_key_value_forms_agree
    (ParamTier.mk Arg.new [(⟨"--name".toList⟩, Arg.new.require_value)])
    "--name".toList "Ada".toList [] ⟨"--name".toList⟩ Arg.new.require_value
    (ParsedArg.mk [⟨"build".toList, []⟩])
    (by decide) (by decide) (by decide) (by decide)
    ⟨ParseError.no_value_given "", rfl, rfl⟩ (fun s => rfl) (by decide)

/-- Claim C2 (code bug): with `should_consume_positional` set and a
key-shaped next token, `ParamTier::parse` fails with an `InvalidValue`
error tagged `arg{tier}`, not with the `NotPositional` kind the crate
defines (and never uses); evaluated on the spec's own scenario
`["--verbose"]` at tier 0. -/
theorem C2_positional_key_error_kind :
    (∀ (t : ParamTier) (posId : Nat) (args : ParsedArg) (current : Str)
        (rest : List Str), ArgKey.is_arg_key current = true →
        t.parse posId args (current :: rest) true
          = .error ((ParseError.invalid_value
              "expected args instead of kwargs").withKey (argTag posId)))
    ∧ (ArgParser.mk [⟨Arg.new.require_value,
        [(⟨"--verbose".toList⟩, Arg.new.as_flag)]⟩]).parse ["--verbose".toList]
      = .error ⟨ParseErrorKind.InvalidValue, "expected args instead of kwargs",
          some "arg0".toList⟩
    ∧ ParseErrorKind.InvalidValue ≠ ParseErrorKind.NotPositional := by
  refine ⟨?_, by decide, by decide⟩
  intro t posId args current rest hk
  simp only [ParamTier.parse, if_true, hk]

/-- Claim C3 (code bug): the `Arg::validate` builder appends
unconditionally, so registering a validator of a kind already present
(same `id`) duplicates it instead of replacing it: two `require_value`
calls leave two `ArgEmptyValidator`s. -/
theorem C3_same_kind_validator_duplicates :
    (∀ (a : Arg) (v : Validator),
        (a.validateWith v).validators = a.validators ++ [v])
    ∧ (Arg.new.require_value.require_value).validators
        = [Validator.empty false, Validator.empty false]
    ∧ (Arg.new.require_value.require_value).len = 2
    ∧ (Validator.empty false).idOf = some "ArgEmptyValidator" := by
  exact ⟨fun a v => rfl, by decide, by decide, by decide⟩

/-- Counterexample for claim C5: the token `-ab` does not have the spec's
key shape (`-` plus exactly one character, or `--` plus two or more), yet
`is_arg_key` accepts it and `ArgKey::new` succeeds on it. -/
theorem C5_key_shape_counterexample :
    ArgKey.is_arg_key "-ab".toList = true
    ∧ specKeyShape "-ab".toList = false
    ∧ ArgKey.new "-ab".toList = .ok ⟨"-ab".toList⟩ := by
  exact ⟨by decide, by decide, rfl⟩

/-- Claim C5 (amended): `is_arg_key` holds exactly on tokens that start
with `-`, and `ArgKey::new` succeeds on exactly those tokens, failing with
the key error otherwise. -/
theorem C5_key_shape_amended : ∀ s : Str,
    (ArgKey.is_arg_key s = true ↔ s.head? = some '-')
    ∧ ArgKey.new s
        = (if ArgKey.is_arg_key s then .ok ⟨s⟩
           else .error ParseError.invalid_key) := by
  intro s
  refine ⟨?_, rfl⟩
  cases s with
  | nil => simp [ArgKey.is_arg_key]
  | cons c cs => simp [ArgKey.is_arg_key]

end Clrust

namespace Clrust

/-- Claim C6 (confirmed): `ArgCountValidator::post_validate` with bounds
`[min, max]` fails exactly when the occurrence count of the key is outside
the bounds, with the cardinality error kind (`TooManyValueGiven`, the
crate's realization of the spec's `TooManyOrTooLittleValue`); with no key
(the positional case) the count is taken to be 1. -/
theorem C6_cardinality_bounds (minS maxS : Nat) (k : ArgKey) (args : ParsedArg)
    (c : Nat) (hc : args.count k = some c) :
    (if c < minS ∨ maxS < c
      then ∃ e, (Validator.count minS maxS).postValidate (some k) args = .error e
            ∧ e.kind = ParseErrorKind.TooManyValueGiven
      else (Validator.count minS maxS).postValidate (some k) args = .ok args)
    ∧ (if 1 < minS ∨ maxS < 1
      then ∃ e, (Validator.count minS maxS).postValidate none args = .error e
            ∧ e.kind = ParseErrorKind.TooManyValueGiven
      else (Validator.count minS maxS).postValidate none args = .ok args) := by
  constructor
  · by_cases hcond : c < minS ∨ maxS < c
    · simp only [if_pos hcond, Validator.postValidate, hc]
      exact ⟨_, rfl, rfl⟩
    · simp only [if_neg hcond, Validator.postValidate, hc]
  · by_cases hcond : 1 < minS ∨ maxS < 1
    · simp only [if_pos hcond, Validator.postValidate]
      exact ⟨_, rfl, rfl⟩
    · simp only [if_neg hcond, Validator.postValidate]

/-- Witness for C6: bounds (1,1) with zero occurrences fail, and the
positional case passes. -/
theorem C6_cardinality_bounds_witness :
    (∃ e, (Validator.count 1 1).postValidate (some ⟨"--count".toList⟩)
          (ParsedArg.mk [⟨"build".toList, []⟩]) = .error e
        ∧ e.kind = ParseErrorKind.TooManyValueGiven)
    ∧ (Validator.count 1 1).postValidate none (ParsedArg.mk [⟨"build".toList, []⟩])
        = .ok (ParsedArg.mk [⟨"build".toList, []⟩]) := by
  have h := C6_cardinality_bounds 1 1 ⟨"--count".toList⟩
    (ParsedArg.mk [⟨"build".toList, []⟩]) 0 (by decide)
  exact ⟨h.1, h.2⟩

/-- Claim C7 (confirmed): `DefaultArg::post_validate` appends `(k, d)`
exactly once when `k` is absent, appends nothing when `k` is present,
never appends for the positional `none` key, and running it again after
the injection adds no second pair. -/
theorem C7_default_injection (d : Str) (k : ArgKey) (args : ParsedArg) (c : Nat)
    (hc : args.count k = some c) :
    ((Validator.defaultArg d).postValidate none args = .ok args)
    ∧ (0 < c → (Validator.defaultArg d).postValidate (some k) args = .ok args)
    ∧ (c = 0 → ∃ args2, args.add_parametric k d = some args2
        ∧ (Validator.defaultArg d).postValidate (some k) args = .ok args2
        ∧ args2.count k = some 1
        ∧ (Validator.defaultArg d).postValidate (some k) args2 = .ok args2) := by
  refine ⟨rfl, ?_, ?_⟩
  · intro hpos
    cases c with
    | zero => exact absurd hpos (by omega)
    | succ n => simp only [Validator.postValidate, hc]
  · intro h0
    subst h0
    have hne : args.args ≠ [] := by
      intro hnil
      simp [ParsedArg.count, hnil] at hc
    obtain ⟨args2, hadd⟩ := add_parametric_isSome k d hne
    have hcnt : args2.count k = some 1 := by
      have hx := count_add_parametric_self hadd
      rw [hc] at hx
      simpa using hx
    refine ⟨args2, hadd, ?_, hcnt, ?_⟩
    · simp only [Validator.postValidate, hc, hadd]
    · simp only [Validator.postValidate, hcnt]

/-- Witness for C7: the default fires once on an absent key and is then
stable. -/
theorem C7_default_injection_witness :
    ((Validator.defaultArg "5".toList).postValidate none
        (ParsedArg.mk [⟨"build".toList, []⟩]) = .ok (ParsedArg.mk [⟨"build".toList, []⟩]))
    ∧ (0 < 0 → (Validator.defaultArg "5".toList).postValidate
        (some ⟨"--count".toList⟩) (ParsedArg.mk [⟨"build".toList, []⟩])
        = .ok (ParsedArg.mk [⟨"build".toList, []⟩]))
    ∧ (0 = 0 → ∃ args2, (ParsedArg.mk [⟨"build".toList, []⟩]).add_parametric
          ⟨"--count".toList⟩ "5".toList = some args2
        ∧ (Validator.defaultArg "5".toList).postValidate (some ⟨"--count".toList⟩)
            (ParsedArg.mk [⟨"build".toList, []⟩]) = .ok args2
        ∧ args2.count ⟨"--count".toList⟩ = some 1
        ∧ (Validator.defaultArg "5".toList).postValidate (some ⟨"--count".toList⟩)
            args2 = .ok args2) :=
  C7_default_injection "5".toList ⟨"--count".toList⟩
    (ParsedArg.mk [⟨"build".toList, []⟩]) 0 (by decide)

end Clrust

namespace Clrust

/-- Counterexample for claim C8: the option-set validator (id Option, a
kind distinct from `ArgEmptyValidator`) also returns `NoValueGiven` when
no value is supplied, so the emptiness validator is not the only source of
that error. -/
theorem C8_option_validator_no_value :
    (Validator.option []).validate none = .error (ParseError.no_value_given "")
    ∧ (ParseError.no_value_given "").kind = ParseErrorKind.NoValueGiven
    ∧ (Validator.option []).idOf = some "Option"
    ∧ (Validator.empty false).idOf = some "ArgEmptyValidator"
    ∧ (Validator.option []).idOf ≠ (Validator.empty false).idOf := by
  exact ⟨rfl, rfl, rfl, rfl, by decide⟩

/-- Claim C8 (amended): the validators whose `validate` can return
`NoValueGiven` are exactly `ArgEmptyValidator` with `allow_empty = false`
and `ArgOptionValidator`, both only on an absent value; the count and
default validators never fail `validate` at all. -/
theorem C8_no_value_given_sources :
    (∀ (val : Validator) (v : Option Str) (e : ParseError),
        val.validate v = .error e → e.kind = ParseErrorKind.NoValueGiven →
        v = none ∧ (val = Validator.empty false ∨ ∃ opts, val = Validator.option opts))
    ∧ ((Validator.empty false).validate none = .error (ParseError.no_value_given ""))
    ∧ (∀ opts, (Validator.option opts).validate none
        = .error (ParseError.no_value_given "")) := by
  refine ⟨?_, rfl, fun opts => rfl⟩
  intro val v e hv hk
  cases val with
  | option opts =>
    cases v with
    | none => exact ⟨rfl, Or.inr ⟨opts, rfl⟩⟩
    | some s =>
      exfalso
      simp only [Validator.validate] at hv
      cases hf : opts.find? (fun o => o.1 == s) with
      | none =>
        rw [hf] at hv
        cases hv
        simp [ParseError.invalid_value] at hk
      | some o =>
        rw [hf] at hv
        cases hv
  | count a b => simp [Validator.validate] at hv
  | defaultArg d => simp [Validator.validate] at hv
  | empty b =>
    cases b with
    | true => simp [Validator.validate] at hv
    | false =>
      cases v with
      | none => exact ⟨rfl, Or.inl rfl⟩
      | some s => simp [Validator.validate] at hv

/-- Claim C9 (confirmed): from any resume point of a parse or incremental
parse, if the record count does not exceed the tier count on entry then it
never does, and the record list only grows (it never shrinks).  Stated
over `runFrom`, whose instances are exactly the intermediate states of
`incremental_parse` and `parse`. -/
theorem C9_record_count_invariant (p : ArgParser) (i : Nat) (args : ParsedArg)
    (raw : List Str) (args' : ParsedArg) (raw' : List Str)
    (hlen : args.args.length ≤ p.args.length)
    (hok : p.runFrom i args raw = .ok (args', raw')) :
    args.args.length ≤ args'.args.length ∧ args'.args.length ≤ p.args.length := by
  simp only [ArgParser.runFrom] at hok
  obtain ⟨hm, hb⟩ := runTiers_len_bound (p.args.drop i) i args raw args' raw' hok
  refine ⟨hm, ?_⟩
  rcases hb with h | h
  · omega
  · have hd : (p.args.drop i).length = p.args.length - i := by simp
    by_cases hi : i ≤ p.args.length
    · omega
    · have hnil : p.args.drop i = [] := by
        apply List.drop_eq_nil_of_le
        omega
      rw [hnil] at hok
      simp only [ArgParser.runTiers] at hok
      cases hok
      omega

/-- Witness for C9 on a one-tier parser consuming one positional token. -/
theorem C9_record_count_invariant_witness :
    (0 : Nat) ≤ 1 ∧ (1 : Nat) ≤ 1 := by
  have h := C9_record_count_invariant
    (ArgParser.mk [⟨Arg.new.require_value, []⟩]) 0 (ParsedArg.mk [])
    ["build".toList] (ParsedArg.mk [⟨"build".toList, []⟩]) []
    (by decide) (by decide)
  exact h

/-- Claim C10 (confirmed): every current-tier query or mutation of
`ParsedArg` unwraps the last record and so panics (modelled as `none`) on
an empty result, and that state is reachable from the public `parse` entry
point: a tier with a keyed `Arg` carrying a count validator runs its
`post_validate` (which calls `count`) even when the cursor was empty and
no positional record was ever pushed. -/
theorem C10_empty_result_panics :
    (∀ k, ParsedArg.new.count k = none)
    ∧ ParsedArg.new.current_positional = none
    ∧ (∀ k, ParsedArg.new.first_of k = none)
    ∧ (∀ k, ParsedArg.new.filterKey k = none)
    ∧ (∀ k, ParsedArg.new.containsKey k = none)
    ∧ ParsedArg.new.parametric_argument_size = none
    ∧ (∀ k v, ParsedArg.new.add_parametric k v = none)
    ∧ (ArgParser.mk [⟨Arg.new.require_value,
        [(⟨"--count".toList⟩, Arg.new.required)]⟩]).parse [] = .panic := by
  exact ⟨fun k => rfl, rfl, fun k => rfl, fun k => rfl, fun k => rfl, rfl,
    fun k v => rfl, by decide⟩

end Clrust

namespace Clrust

/-- Claim C4 (confirmed): `incremental_parse` resumes at tier
`max(0, len(result) - 1)` (it equals `runFrom` there); the re-run tier's
positional `Arg` is never consulted (replacing it cannot change the
result), and on success the already-complete records and all positional
values present on entry are unchanged, so already-parsed tiers are neither
re-validated nor re-recorded.  Each tier runs with
`should_consume_positional = (len(result) <= tier_index)`, re-read from
the growing result, as `runFrom` states. -/
theorem C4_incremental_parse_resumes (p : ArgParser) (args : ParsedArg)
    (raw : List Str) (hn : 1 ≤ args.args.length) :
    p.incrementalParse args raw = p.runFrom (args.args.length - 1) args raw
    ∧ (∀ pos' : Arg,
        (p.setPosAt (args.args.length - 1) pos').incrementalParse args raw
          = p.incrementalParse args raw)
    ∧ (∀ args' raw', p.incrementalParse args raw = .ok (args', raw') →
        args'.args.take (args.args.length - 1)
            = args.args.take (args.args.length - 1)
        ∧ (args'.args.map PositionalParsedArgs.value).take args.args.length
            = (args.args.map PositionalParsedArgs.value).take args.args.length
        ∧ args.args.length ≤ args'.args.length) := by
  obtain ⟨m, hm⟩ : ∃ m, args.args.length = m + 1 :=
    ⟨args.args.length - 1, by omega⟩
  have haq : ∀ q : ArgParser,
      q.incrementalParse args raw = q.runFrom (args.args.length - 1) args raw := by
    intro q
    simp only [ArgParser.incrementalParse, hm]
  refine ⟨haq p, ?_, ?_⟩
  · intro pos'
    rw [haq, haq p]
    by_cases hi : args.args.length - 1 < p.args.length
    · obtain ⟨t, rest, hdrop, hdrop'⟩ :=
        setPosList_drop p.args (args.args.length - 1) pos' hi
      simp only [ArgParser.runFrom, ArgParser.setPosAt]
      rw [hdrop', hdrop]
      simp only [ArgParser.runTiers]
      have hflag : decide (args.args.length ≤ args.args.length - 1) = false :=
        decide_eq_false (by omega)
      rw [hflag, tier_parse_pos_irrelevant t pos' (args.args.length - 1) args raw]
    · simp only [ArgParser.runFrom, ArgParser.setPosAt]
      rw [setPosList_ge p.args (args.args.length - 1) pos' (by omega)]
  · intro args' raw' hok
    rw [haq p] at hok
    simp only [ArgParser.runFrom] at hok
    exact runTiers_preserve args.args.length (p.args.drop (args.args.length - 1))
      (args.args.length - 1) args raw args' raw' hok (le_refl _)

/-- Witness for C4 on a one-tier parser with one record already parsed. -/
theorem C4_incremental_parse_resumes_witness :
    (ArgParser.mk [⟨Arg.new.require_value, []⟩]).incrementalParse
        (ParsedArg.mk [⟨"build".toList, []⟩]) []
      = (ArgParser.mk [⟨Arg.new.require_value, []⟩]).runFrom 0
          (ParsedArg.mk [⟨"build".toList, []⟩]) []
    ∧ (∀ pos' : Arg,
        ((ArgParser.mk [⟨Arg.new.require_value, []⟩]).setPosAt 0 pos').incrementalParse
            (ParsedArg.mk [⟨"build".toList, []⟩]) []
          = (ArgParser.mk [⟨Arg.new.require_value, []⟩]).incrementalParse
              (ParsedArg.mk [⟨"build".toList, []⟩]) [])
    ∧ (∀ args' raw',
        (ArgParser.mk [⟨Arg.new.require_value, []⟩]).incrementalParse
            (ParsedArg.mk [⟨"build".toList, []⟩]) [] = .ok (args', raw') →
        args'.args.take 0 = (ParsedArg.mk [⟨"build".toList, []⟩]).args.take 0
        ∧ (args'.args.map PositionalParsedArgs.value).take 1
            = ((ParsedArg.mk [⟨"build".toList, []⟩]).args.map
                PositionalParsedArgs.value).take 1
        ∧ 1 ≤ args'.args.length) :=
  C4_incremental_parse_resumes (ArgParser.mk [⟨Arg.new.require_value, []⟩])
    (ParsedArg.mk [⟨"build".toList, []⟩]) [] (by decide)

end Clrust
